import Mathlib

/-!
# Verification of the `exort` form-validation engine

This file gives a shallow embedding, in Lean 4, of the validation engine in
`src/validation.ts` (classes `Validation`, `FieldValidator`, `FormValidator`,
`FormValidationError`), together with theorems settling the specification
claims about it.

Modelling conventions:
* JavaScript runtime values reaching the validator are modelled by `JsValue`.
  JavaScript numbers are modelled as integers (every number appearing in the
  claims — `0` and `1` — is an integer, and no rule does arithmetic).
* JavaScript objects used as ordered maps (`this.fields`, `this.rules`,
  `this.fieldErrors`) are modelled as association lists in property insertion
  order; `for…in` enumeration applies JavaScript's own-property key order
  (canonical array-index keys first, ascending, then the remaining keys in
  insertion order), modelled by `jsOwnKeysOrder`.
* `async`/`await` and thrown exceptions are modelled with `Except String`:
  a predicate that throws (rejects) is a `handle` returning `.error`.
* The third-party `moment` library is modelled by `Option Int`:
  `some t` is a valid moment with epoch timestamp `t`, `none` an invalid one.
-/

/-- A JavaScript runtime value, as far as the validation engine observes it. -/
inductive JsValue where
  | vNull
  | vUndefined
  | vBool (b : Bool)
  | vNum (n : Int)
  | vStr (s : String)
  | vArr (elems : List JsValue)

mutual

/-- JavaScript string coercion `` `${val}` `` (template-literal interpolation):
`null`/`undefined` print their names, booleans and numbers their decimal
form, arrays join their elements with `","` where `null`/`undefined`
elements print as the empty string (`Array.prototype.toString`). -/
def toJsString : JsValue → String
  | .vNull => "null"
  | .vUndefined => "undefined"
  | .vBool b => if b then "true" else "false"
  | .vNum n => toString n
  | .vStr s => s
  | .vArr xs => String.intercalate "," (toJsStringElems xs)

def toJsStringElems : List JsValue → List String
  | [] => []
  | .vNull :: rest => "" :: toJsStringElems rest
  | .vUndefined :: rest => "" :: toJsStringElems rest
  | v :: rest => toJsString v :: toJsStringElems rest

end

/-- The character class of the JavaScript regular-expression escape `\s`
(whitespace), as used by `isEmpty`'s `replace(/\s/g, '')`. -/
def jsWhitespaceChar (c : Char) : Bool :=
  c == Char.ofNat 9 || c == Char.ofNat 10 || c == Char.ofNat 11 ||
  c == Char.ofNat 12 || c == Char.ofNat 13 || c == Char.ofNat 32 ||
  c == Char.ofNat 160 || c == Char.ofNat 0x1680 ||
  (0x2000 ≤ c.toNat && c.toNat ≤ 0x200a) ||
  c == Char.ofNat 0x2028 || c == Char.ofNat 0x2029 ||
  c == Char.ofNat 0x202f || c == Char.ofNat 0x205f ||
  c == Char.ofNat 0x3000 || c == Char.ofNat 0xfeff

/-- Remove every `\s` character from a string, as
`` `${val}`.replace(/\s/g, '') `` does in `Validation.isEmpty`. -/
def stripJsWhitespace (s : String) : String :=
  String.mk (s.toList.filter (fun c => !jsWhitespaceChar c))

/-- Modelled from the spec: `_.isNone` from the repo's `misc` module, which is
not under `src/`. The spec calls a value "absent" when it is
"null/undefined-equivalent", so `isNone` holds exactly for `null` and
`undefined`. -/
def jsIsNone : JsValue → Bool
  | .vNull => true
  | .vUndefined => true
  | _ => false

/-- Is `c` an ASCII letter or digit? (Used by the model of `_.lowerCase`.) -/
def isAlphaNumCh (c : Char) : Bool :=
  c.isAlpha || c.isDigit

/-- One step of the `lowerCaseWords` scan: `out` is the output so far,
`prev` the previous alphanumeric character (if the last one was one). -/
def lowerCaseStep (acc : List Char × Option Char) (c : Char) : List Char × Option Char :=
  let out := acc.1
  let prev := acc.2
  if isAlphaNumCh c then
    let breakWord :=
      c.isUpper && (match prev with
        | some p => p.isLower || p.isDigit
        | none => false)
    (if breakWord then out ++ [' ', c.toLower] else out ++ [c.toLower], some c)
  else
    (if out = [] || out.getLast? = some ' ' then out else out ++ [' '], none)

/-- Modelled from the spec: `_.lowerCase` from the repo's `misc` module (not
under `src/`), the "lower-cased/spaced derivation of the field name" used as
the default field label: words (split at case boundaries and at
non-alphanumeric separators) are lower-cased and joined by single spaces. -/
def lowerCaseWords (s : String) : String :=
  let out := (s.toList.foldl lowerCaseStep ([], none)).1
  String.mk (if out.getLast? = some ' ' then out.dropLast else out)

/-- Trim ASCII spaces from both ends of a placeholder key. -/
def trimSpacesList (cs : List Char) : List Char :=
  (cs.dropWhile (fun c => c == ' ')).reverse.dropWhile (fun c => c == ' ') |>.reverse

/-- Character-level scan for the template renderer; `fuel` bounds the
recursion (it is called with the length of the character list, and every
step consumes at least one character, so the fuel never runs out). -/
def renderTemplateAux (attrs : List (String × String)) : Nat → List Char → List Char
  | 0, cs => cs
  | fuel + 1, cs =>
    match cs with
    | [] => []
    | c :: rest =>
      if c == Char.ofNat 36 && rest.head? == some (Char.ofNat 123) then
        let body := rest.tail
        let key := body.takeWhile (fun d => !(d == Char.ofNat 125))
        let remaining := body.drop (key.length + 1)
        ((attrs.lookup (String.mk (trimSpacesList key))).getD "").toList ++
          renderTemplateAux attrs fuel remaining
      else
        c :: renderTemplateAux attrs fuel rest

/-- Modelled from the spec: `_.template(message)(attrs)` from the repo's
`misc` module (not under `src/`). Rendering substitutes each `\x7b`-delimited
placeholder introduced by a dollar sign with the corresponding attribute
value; per the spec's "missing keys render as empty/undefined — preserve this
lenient behavior", a missing key renders as the empty string. -/
def renderTemplate (template : String) (attrs : List (String × String)) : String :=
  String.mk (renderTemplateAux attrs template.toList.length template.toList)

/-- Regular expressions over `Char`, sufficient for the patterns the engine
compiles with `new RegExp(...)`. `pred p` matches a single character
satisfying `p` (literal characters and character classes). -/
inductive RE where
  | fail
  | eps
  | pred (p : Char → Bool)
  | cat (a b : RE)
  | alt (a b : RE)
  | star (a : RE)

/-- Does `r` accept the empty string? -/
def RE.nullable : RE → Bool
  | .fail => false
  | .eps => true
  | .pred _ => false
  | .cat a b => a.nullable && b.nullable
  | .alt a b => a.nullable || b.nullable
  | .star _ => true

/-- Size-reducing concatenation (used only inside `deriv` to keep
derivatives small; the language is unchanged). -/
def RE.mkCat : RE → RE → RE
  | .fail, _ => .fail
  | .eps, b => b
  | _, .fail => .fail
  | a, .eps => a
  | a, b => .cat a b

/-- Size-reducing alternation. -/
def RE.mkAlt : RE → RE → RE
  | .fail, b => b
  | a, .fail => a
  | a, b => .alt a b

/-- Brzozowski derivative of `r` by the character `c`. -/
def RE.deriv : RE → Char → RE
  | .fail, _ => .fail
  | .eps, _ => .fail
  | .pred p, c => if p c then .eps else .fail
  | .cat a b, c =>
    if a.nullable then .mkAlt (.mkCat (a.deriv c) b) (b.deriv c)
    else .mkCat (a.deriv c) b
  | .alt a b, c => .mkAlt (a.deriv c) (b.deriv c)
  | .star a, c => .mkCat (a.deriv c) (.star a)

/-- Whole-string matching (the engine's patterns are all anchored
`^...$`, and `RegExp.test` on an anchored pattern decides exactly
whole-string language membership). -/
def RE.matchesStr (r : RE) (s : String) : Bool :=
  (s.toList.foldl RE.deriv r).nullable

/-- A single literal character. -/
def RE.chr (c : Char) : RE := .pred (fun d => d == c)

/-- JavaScript `.`: any character except a line terminator. -/
def RE.anyDot : RE :=
  .pred (fun d => !(d == Char.ofNat 10 || d == Char.ofNat 13 ||
    d == Char.ofNat 0x2028 || d == Char.ofNat 0x2029))

/-- A negated character class `[^…]` (matches line terminators too). -/
def RE.notOf (cs : List Char) : RE := .pred (fun d => !(cs.contains d))

/-- The pattern `r+`. -/
def RE.plus (r : RE) : RE := .cat r (.star r)

/-- The pattern `r?`. -/
def RE.opt (r : RE) : RE := .alt .eps r

/-- The pattern `r\x7b1,3\x7d`. -/
def RE.rep13 (r : RE) : RE := .cat r (.cat r.opt r.opt)

/-- The pattern `r\x7b2,\x7d`. -/
def RE.rep2plus (r : RE) : RE := .cat r r.plus

/-- Concatenation of a list of regexes. -/
def RE.seq (rs : List RE) : RE := rs.foldr RE.cat .eps

/-- The class `[0-9]` (`Char.isDigit` is exactly the ASCII digits). -/
def reDigit : RE := .pred Char.isDigit

/-- The class `[a-zA-Z]` (`Char.isAlpha` is exactly the ASCII letters). -/
def reLetter : RE := .pred Char.isAlpha

/-- The class `[a-zA-Z-0-9]`: ASCII letters, digits, or a hyphen. -/
def reAlnumDash : RE := .pred (fun d => d.isAlpha || d.isDigit || d == '-')

/-!
## The email pattern, as executed

`Validation.isEmail` builds its pattern with `new RegExp` from a JavaScript
*template literal*:

```
`^(([^<>()[\]\\.,;:\s@\"]+(\.[^<>()[\]\\.,;:\s@\"]+)*)|(\".+\"))` +
`@((\[[0-9]{1,3}\.[0-9]{1,3}\.[0-9]{1,3}\.[0-9]{1,3}\])|(([a-zA-Z\-0-9]+\.)+[a-zA-Z]{2,}))$`
```

Template literals process string escapes before the string ever reaches the
regex engine: `\\` becomes a single backslash, and the unrecognized escapes
`\]`, `\.`, `\s`, `\"`, `\[`, `\-` drop their backslash (`` `\s` `` is the
two-character-free string `"s"`). The string actually passed to `new RegExp`
is therefore

```
^(([^<>()[]\.,;:s@"]+(.[^<>()[]\.,;:s@"]+)*)|(".+"))@(([[0-9]{1,3}.[0-9]{1,3}.[0-9]{1,3}.[0-9]{1,3}])|(([a-zA-Z-0-9]+.)+[a-zA-Z]{2,}))$
```

which the JavaScript regex engine parses as follows (in a non-`u` regex an
unescaped `]` outside a class is a literal, and a class ends at the first
unescaped `]`, so `[^<>()[]` is the negated class over `<>()[`):

* local part, first alternative: `[^<>()[]` then the literal characters
  `\.` `,` `;` `:` `s` `@` `"` then `]+`, followed by zero or more of
  ( `.` (any char) then that same sequence again );
* local part, second alternative: `".+"` — a quote, one or more arbitrary
  characters, a quote;
* `@`;
* domain, first alternative: `[[0-9]{1,3}` (one to three characters that are
  `[` or a digit) then `.` (any char), `[0-9]{1,3}`, `.`, `[0-9]{1,3}`, `.`,
  `[0-9]{1,3}`, then a literal `]`;
* domain, second alternative: `([a-zA-Z-0-9]+.)+[a-zA-Z]{2,}` where the `.`
  is again *any* character.
-/

/-- The repeated unit of the executed pattern's first local-part
alternative: one character not in `<>()[`, then the literal text
`. , ; : s @ "` followed by one or more `]`. -/
def emailLocalUnit : RE :=
  RE.seq [RE.notOf ['<', '>', '(', ')', '['],
    RE.chr '.', RE.chr ',', RE.chr ';', RE.chr ':', RE.chr 's',
    RE.chr '@', RE.chr (Char.ofNat 34), RE.plus (RE.chr ']')]

/-- The executed pattern's local part:
`unit(.unit)*` or a double-quoted `".+"`. -/
def emailLocal : RE :=
  RE.alt (RE.cat emailLocalUnit (RE.star (RE.cat RE.anyDot emailLocalUnit)))
    (RE.seq [RE.chr (Char.ofNat 34), RE.plus RE.anyDot, RE.chr (Char.ofNat 34)])

/-- The executed pattern's first domain alternative (what remains of the
intended bracketed dotted-quad after escape processing). -/
def emailDomainIp : RE :=
  RE.seq [RE.rep13 (.pred (fun d => d == '[' || d.isDigit)), RE.anyDot,
    RE.rep13 reDigit, RE.anyDot, RE.rep13 reDigit, RE.anyDot,
    RE.rep13 reDigit, RE.chr ']']

/-- The executed pattern's second domain alternative:
`([a-zA-Z-0-9]+.)+[a-zA-Z]{2,}` with `.` matching any character. -/
def emailDomainName : RE :=
  RE.cat (RE.plus (RE.cat (RE.plus reAlnumDash) RE.anyDot)) (RE.rep2plus reLetter)

/-- The full pattern `new RegExp` actually receives in `Validation.isEmail`
(see the module comment above for the derivation). -/
def emailPattern : RE :=
  RE.seq [emailLocal, RE.chr '@', RE.alt emailDomainIp emailDomainName]

/-- Embeds `Validation.isEmail`: `pattern.test(val)` with the executed pattern. -/
def Validation.isEmail (val : String) : Bool :=
  emailPattern.matchesStr val
/-- Character-wise ASCII lower-casing, the fragment of JavaScript
`String.prototype.toLowerCase` relevant to the engine (every string the
claims mention is ASCII). -/
def jsToLowerAscii (s : String) : String :=
  String.mk (s.toList.map Char.toLower)

/-- The numeric value of a string of ASCII digits. -/
def digitsToNat (cs : List Char) : Nat :=
  cs.foldl (fun n c => n * 10 + (c.toNat - 48)) 0

/-- JavaScript `arg || dflt` for an optional string argument: the default
is taken when the argument is absent (`undefined`) *or falsy* — for a
string, when it is empty. Used wherever the source writes
`message || Validation.RULE_MESSAGES...`, `fieldLabel || _.lowerCase(...)`
or `super(message || 'Invalid form input')`. -/
def jsStringOr (arg : Option String) (dflt : String) : String :=
  match arg with
  | none => dflt
  | some s => if s = "" then dflt else s

/-- An argument of the `moment(...)` coercions: either an existing moment
(`moment.isMoment` is true) or a raw value still to be parsed. -/
inductive MomentInput where
  | mom (t : Option Int)
  | raw (v : JsValue)

/-- Modelled from the spec: parsing by the external `moment` library ("The
dates will be passed into moment library"). The model keeps only what the
claims rely on: numbers are valid moments (their timestamp), strings of
ASCII digits parse to that timestamp, everything else is invalid. -/
def momentOfValue : JsValue → Option Int
  | .vNum n => some n
  | .vStr s =>
    if !s.toList.isEmpty && s.toList.all Char.isDigit then
      some ((digitsToNat s.toList : Nat) : Int)
    else none
  | _ => none

/-- The moment a `MomentInput` denotes once parsed. -/
def MomentInput.toMoment : MomentInput → Option Int
  | .mom t => t
  | .raw v => momentOfValue v

/-- The coercion done at rule-attachment time by `after`/`afterOrEqual`:
`if (!moment.isMoment(date)) \x7b date = moment(date); \x7d`. -/
def coerceMomentInput : MomentInput → MomentInput
  | .mom t => .mom t
  | .raw v => .mom (momentOfValue v)

/-- Embeds `moment#toString`, used only to fill the `date` message attribute
(modelled: a valid moment prints its timestamp, an invalid one prints
moment's fixed "Invalid date"). -/
def momentToString : Option Int → String
  | some t => toString t
  | none => "Invalid date"

/-- Embeds `Validation.isAccepted`: the `typeof` dispatch of the source — a string
is accepted iff its lower-casing is `"yes"`, a boolean iff it is `true`, a
number iff it equals `1`, anything else is rejected. (`String.toLower`
agrees with JavaScript `toLowerCase` on ASCII, which covers every string
the claims mention.) -/
def Validation.isAccepted : JsValue → Bool
  | .vStr s => jsToLowerAscii s == "yes"
  | .vBool b => b == true
  | .vNum n => n == 1
  | _ => false

/-- Embeds `Validation.isEmpty`: absent values are empty; otherwise the value is
string-coerced, all `\s` characters removed, and emptiness of the result
decides. -/
def Validation.isEmpty (val : JsValue) : Bool :=
  if jsIsNone val then true
  else
    let str := stripJsWhitespace (toJsString val)
    if str.length > 0 then false else true

/-- Embeds `Validation.isAfter`: `moment(dateToCheck).isAfter(afterDate)` — false
whenever either side is invalid, otherwise strict timestamp comparison. -/
def Validation.isAfter (dateToCheck afterDate : MomentInput) : Bool :=
  match dateToCheck.toMoment, afterDate.toMoment with
  | some x, some y => decide (y < x)
  | _, _ => false

/-- Embeds `Validation.isAfterOrEqual`: `moment(dateToCheck).isSameOrAfter(afterDate)`. -/
def Validation.isAfterOrEqual (dateToCheck afterDate : MomentInput) : Bool :=
  match dateToCheck.toMoment, afterDate.toMoment with
  | some x, some y => decide (y ≤ x)
  | _, _ => false

/-- The `Validation.RULE_MESSAGES` entries used by the embedded rules. -/
def Validation.RULE_MESSAGES.email : String := "The ${label} must be a valid email address."

def Validation.RULE_MESSAGES.accepted : String := "The ${label} must be accepted."

def Validation.RULE_MESSAGES.required : String := "The ${label} field is required."

def Validation.RULE_MESSAGES.after : String := "The ${label} must be a date after ${date}."

def Validation.RULE_MESSAGES.afterOrEqual : String := "The ${label} must be a date after or equal to ${date}."

/-- The `ValidationRule` interface: a named predicate with a message
template and message attributes. `handle` gets the current input value of
the rule's field (the source closure reads it through
`this.validator.getInput(this.fieldName)`); `.error` models the predicate
throwing / rejecting. `isAsync` mirrors the interface's `async?` flag; an
async rule is awaited where a sync one is called directly, which this
sequential model makes identical. -/
structure ValidationRule where
  name : String
  isAsync : Bool
  handle : JsValue → Except String Bool
  message : String
  attrs : List (String × String)

/-- The `FieldValidationError` interface. -/
structure FieldValidationError where
  rule : String
  message : String
deriving DecidableEq

/-- The `FieldValidator` class state: its field name and label, the rule
map (association list in property insertion order) and the accumulated
failure records. -/
structure FieldValidator where
  fieldName : String
  fieldLabel : String
  rules : List ValidationRule
  errors : List FieldValidationError

/-- Is `s` a canonical array-index property key (`"0"`, `"1"`, …,
below `2^32 - 1`, no leading zero)? JavaScript enumerates these own keys
first, in ascending numeric order. -/
def isArrayIndexKey (s : String) : Bool :=
  !s.toList.isEmpty && s.toList.all Char.isDigit &&
  (s.toList == ['0'] || !(s.toList.head? == some '0')) &&
  digitsToNat s.toList < 4294967295

/-- Stable insertion of `a` into a list sorted ascending by `f`. -/
def insertSortedBy {α : Type} (f : α → Nat) (a : α) : List α → List α
  | [] => [a]
  | b :: bs => if f a < f b then a :: b :: bs else b :: insertSortedBy f a bs

/-- Stable insertion sort, ascending by `f`. -/
def insertionSortBy {α : Type} (f : α → Nat) : List α → List α
  | [] => []
  | a :: as => insertSortedBy f a (insertionSortBy f as)

/-- Numeric value of an array-index key. -/
def jsKeyNat (s : String) : Nat := digitsToNat s.toList

/-- JavaScript own-property enumeration order (the order `for…in` visits a
plain object's keys): entries whose key is a canonical array index first,
in ascending numeric order, then the remaining entries in insertion
order. -/
def jsOwnKeysOrder {α : Type} (key : α → String) (l : List α) : List α :=
  insertionSortBy (fun a => jsKeyNat (key a))
      (l.filter (fun a => isArrayIndexKey (key a))) ++
    l.filter (fun a => !isArrayIndexKey (key a))

/-- Embeds `this.rules[name] = \x7b...\x7d`: assigning a property keyed by the rule name —
an existing key keeps its position and gets the new value, a new key is
appended. -/
def attachRuleList (rules : List ValidationRule) (r : ValidationRule) : List ValidationRule :=
  if rules.any (fun r0 => r0.name == r.name) then
    rules.map (fun r0 => if r0.name == r.name then r else r0)
  else rules ++ [r]

/-- Attach (or overwrite) one rule on a field validator. -/
def FieldValidator.attachRule (fv : FieldValidator) (r : ValidationRule) : FieldValidator :=
  { fv with rules := attachRuleList fv.rules r }

/-- The rule registered by `FieldValidator.email` (note that
`RegExp.test` string-coerces its argument, hence `toJsString`). -/
def emailRuleOf (label : String) (message : Option String) : ValidationRule :=
  { name := "email", isAsync := false,
    handle := fun v => .ok (Validation.isEmail (toJsString v)),
    message := jsStringOr message Validation.RULE_MESSAGES.email,
    attrs := [("label", label)] }

/-- Embeds `FieldValidator.email`. -/
def FieldValidator.email (fv : FieldValidator) (message : Option String) : FieldValidator :=
  fv.attachRule (emailRuleOf fv.fieldLabel message)

/-- The rule registered by `FieldValidator.accepted`. -/
def acceptedRuleOf (label : String) (message : Option String) : ValidationRule :=
  { name := "accepted", isAsync := false,
    handle := fun v => .ok (Validation.isAccepted v),
    message := jsStringOr message Validation.RULE_MESSAGES.accepted,
    attrs := [("label", label)] }

/-- Embeds `FieldValidator.accepted`. -/
def FieldValidator.accepted (fv : FieldValidator) (message : Option String) : FieldValidator :=
  fv.attachRule (acceptedRuleOf fv.fieldLabel message)

/-- The rule registered by `FieldValidator.required`
(`!this.validator.getValidation().isEmpty(...)`). -/
def requiredRuleOf (label : String) (message : Option String) : ValidationRule :=
  { name := "required", isAsync := false,
    handle := fun v => .ok (!Validation.isEmpty v),
    message := jsStringOr message Validation.RULE_MESSAGES.required,
    attrs := [("label", label)] }

/-- Embeds `FieldValidator.required`. -/
def FieldValidator.required (fv : FieldValidator) (message : Option String) : FieldValidator :=
  fv.attachRule (requiredRuleOf fv.fieldLabel message)

/-- The rule registered by `FieldValidator.after`: the bound is coerced to
a moment at attachment time, then the handle compares the (parsed) field
value against it with `Validation.isAfter`. -/
def afterRuleOf (label : String) (date : MomentInput) (message : Option String) : ValidationRule :=
  let date2 := coerceMomentInput date
  { name := "after", isAsync := false,
    handle := fun v => .ok (Validation.isAfter (.raw v) date2),
    message := jsStringOr message Validation.RULE_MESSAGES.after,
    attrs := [("label", label), ("date", momentToString date2.toMoment)] }

/-- Embeds `FieldValidator.after`. -/
def FieldValidator.after (fv : FieldValidator) (date : MomentInput) (message : Option String) : FieldValidator :=
  fv.attachRule (afterRuleOf fv.fieldLabel date message)

/-- The rule registered by `FieldValidator.afterOrEqual`. -/
def afterOrEqualRuleOf (label : String) (date : MomentInput) (message : Option String) : ValidationRule :=
  let date2 := coerceMomentInput date
  { name := "afterOrEqual", isAsync := false,
    handle := fun v => .ok (Validation.isAfterOrEqual (.raw v) date2),
    message := jsStringOr message Validation.RULE_MESSAGES.afterOrEqual,
    attrs := [("label", label), ("date", momentToString date2.toMoment)] }

/-- Embeds `FieldValidator.afterOrEqual`. -/
def FieldValidator.afterOrEqual (fv : FieldValidator) (date : MomentInput) (message : Option String) : FieldValidator :=
  fv.attachRule (afterOrEqualRuleOf fv.fieldLabel date message)

/-- Embeds `FormValidator.getInput`: reading a missing property of the input
snapshot yields `undefined`. -/
def getInputValue (input : List (String × JsValue)) (key : String) : JsValue :=
  (input.lookup key).getD .vUndefined

/-- Embeds what `FieldValidator.addError` builds this record: the rule name and the
message template rendered against the rule's attributes. -/
def mkFieldError (r : ValidationRule) : FieldValidationError :=
  { rule := r.name, message := renderTemplate r.message r.attrs }

/-- Embeds `FieldValidator.hasErrors`: `this.errors.length ? true : false`. -/
def FieldValidator.hasErrors (fv : FieldValidator) : Bool :=
  !fv.errors.isEmpty

/-- Embeds `FieldValidator.getErrors`. -/
def FieldValidator.getErrors (fv : FieldValidator) : List FieldValidationError :=
  fv.errors

/-- The loop body of `FieldValidator.check`: run the rules in order on the
field's input value, appending a failure record for each rule whose
predicate returns false; a predicate that throws aborts the whole loop. -/
def checkRulesAux (v : JsValue) : List ValidationRule → List FieldValidationError → Except String (List FieldValidationError)
  | [], acc => .ok acc
  | r :: rs, acc =>
    match r.handle v with
    | .error e => .error e
    | .ok pass => checkRulesAux v rs (if pass then acc else acc ++ [mkFieldError r])

/-- Embeds `FieldValidator.check`: reset `errors`, run every attached rule (in
`for…in` order over the rule map) against the field's current input value,
record failures, and return `hasErrors()` (the source returns *whether a
failure occurred*). The returned validator is the post-check state of the
mutated-in-place `this`. -/
def FieldValidator.check (fv : FieldValidator) (input : List (String × JsValue)) : Except String (FieldValidator × Bool) :=
  match checkRulesAux (getInputValue input fv.fieldName) (jsOwnKeysOrder ValidationRule.name fv.rules) [] with
  | .error e => .error e
  | .ok errs => .ok ({ fv with errors := errs }, !errs.isEmpty)

/-- The `FormValidator` class state: the immutable input snapshot, the
field-validator map (insertion order = first-referenced order) and the
aggregate error map of the most recent validation pass. -/
structure FormValidator where
  input : List (String × JsValue)
  fields : List FieldValidator
  fieldErrors : List (String × List FieldValidationError)

/-- Embeds the `this.fields[fieldName]` lookup. -/
def lookupField (fields : List FieldValidator) (name : String) : Option FieldValidator :=
  fields.find? (fun fv => fv.fieldName == name)

/-- Embeds `FormValidator.field`: return the existing field validator if the name
was already referenced, else create one (the label defaults to
`_.lowerCase(fieldName)`) and append it to the field map. -/
def FormValidator.field (form : FormValidator) (fieldName : String) (fieldLabel : Option String) : FormValidator × FieldValidator :=
  match lookupField form.fields fieldName with
  | some fv => (form, fv)
  | none =>
    let fv : FieldValidator :=
      { fieldName := fieldName, fieldLabel := jsStringOr fieldLabel (lowerCaseWords fieldName),
        rules := [], errors := [] }
    ({ form with fields := form.fields ++ [fv] }, fv)

/-- The loop of `FormValidator.validate`: check each field in enumeration
order, threading the `valid` flag (set to false when a field has errors)
and appending that field's error list to the aggregate map; a throwing
predicate aborts the loop. -/
def runChecks (input : List (String × JsValue)) : List FieldValidator → List (String × List FieldValidationError) → Bool → Except String (List (String × List FieldValidationError) × Bool)
  | [], errMap, valid => .ok (errMap, valid)
  | fv :: rest, errMap, valid =>
    match fv.check input with
    | .error e => .error e
    | .ok (fv2, _) =>
      runChecks input rest
        (if fv2.hasErrors then errMap ++ [(fv2.fieldName, fv2.errors)] else errMap)
        (valid && !fv2.hasErrors)

/-- The post-check state of one field validator. In the source, `check()`
mutates each field validator in place; on the success path of `validate`
every field's check succeeded, so the `.error` fallback (which keeps this
function total) is never reached there. -/
def checkedOrSelf (input : List (String × JsValue)) (fv : FieldValidator) : FieldValidator :=
  match fv.check input with
  | .ok (fv2, _) => fv2
  | .error _ => fv

/-- Embeds `FormValidator.validate`: reset the aggregate error map, check every
field in `for…in` enumeration order, store each failing field's error list
under its name, and return whether all fields passed. The field map keeps
its insertion order, each validator replaced by its post-check state. -/
def FormValidator.validate (form : FormValidator) : Except String (FormValidator × Bool) :=
  match runChecks form.input (jsOwnKeysOrder FieldValidator.fieldName form.fields) [] true with
  | .error e => .error e
  | .ok (errMap, valid) =>
    .ok ({ form with fields := form.fields.map (checkedOrSelf form.input), fieldErrors := errMap }, valid)

/-- Embeds `FormValidator.getErrors`. -/
def FormValidator.getErrors (form : FormValidator) : List (String × List FieldValidationError) :=
  form.fieldErrors

/-- The `FormValidationError` class: the aggregate per-field failure map
plus the error message. -/
structure FormValidationError where
  fields : List (String × List FieldValidationError)
  message : String
deriving DecidableEq

/-- The `FormValidationError` constructor:
`super(message || 'Invalid form input')` — a falsy check, so an absent
*or empty* message yields the fixed default. -/
def FormValidationError.make (fields : List (String × List FieldValidationError)) (message : Option String) : FormValidationError :=
  { fields := fields, message := jsStringOr message "Invalid form input" }

/-- Embeds `FormValidationError.getCompiledMessage`: push every field's messages
while enumerating the field map, then `join(mergeToken)`. -/
def FormValidationError.getCompiledMessage (e : FormValidationError) (mergeToken : String) : String :=
  String.intercalate mergeToken
    ((jsOwnKeysOrder Prod.fst e.fields).foldl
      (fun acc p => p.2.foldl (fun acc2 fe => acc2 ++ [fe.message]) acc) [])

/-- Embeds `getCompiledMessage()` with its default merge token (a newline). -/
def FormValidationError.getCompiledMessageDefault (e : FormValidationError) : String :=
  e.getCompiledMessage "\n"

/-- An exception escaping `validateAndThrow`: either the structured
`FormValidationError` it raises itself, or an exception propagated from a
rule predicate. -/
inductive JsException where
  | formError (e : FormValidationError)
  | raw (msg : String)
deriving DecidableEq

/-- Embeds `FormValidator.validateAndThrow`: run `validate()`; when it reports
failure, throw a `FormValidationError` carrying `this.getErrors()` (with
the default message); otherwise return normally. -/
def FormValidator.validateAndThrow (form : FormValidator) : Except JsException FormValidator :=
  match form.validate with
  | .error e => .error (.raw e)
  | .ok (form2, valid) =>
    if valid then .ok form2
    else .error (.formError (FormValidationError.make form2.getErrors none))

/-- Models the usual fluent call `form.field(name).someRule(...)`:
`field` gets or creates the aliased field validator, and the rule method
mutates that validator in place, so the updated validator replaces it at
its position in the form's field map. -/
def FormValidator.withRuleOn (form : FormValidator) (name : String) (label : Option String) (f : FieldValidator → FieldValidator) : FormValidator :=
  let p := form.field name label
  { p.1 with fields := p.1.fields.map (fun fv => if fv.fieldName == name then f p.2 else fv) }

/-- Lemma: `Validation.isEmpty` is true exactly for absent values and values whose
string coercion has length zero once all whitespace is removed. -/
theorem isEmpty_eq_true_iff (v : JsValue) :
    Validation.isEmpty v = true ↔
      (jsIsNone v = true ∨ (stripJsWhitespace (toJsString v)).length = 0) := by
  unfold Validation.isEmpty
  cases h : jsIsNone v
  · simp only [h, Bool.false_eq_true, false_or, if_false]
    by_cases hl : (stripJsWhitespace (toJsString v)).length > 0
    · simp [hl]; omega
    · simp [hl]; omega
  · simp [h]

/-- C1: the spec claims `isEmail` accepts "user@example.com" and
"a.b@sub.domain.co" and rejects "not-an-email", matching the intended
RFC-5322-subset pattern. The executed code disagrees: template-literal
escape processing mangles the pattern (see the comment at `emailPattern`),
so both claimed positives are rejected, while a nonsense string containing
the literal text `.,;:s@"]` in its local part is accepted. -/
theorem C1_isEmail_executed_behavior :
    Validation.isEmail "user@example.com" = false ∧
    Validation.isEmail "a.b@sub.domain.co" = false ∧
    Validation.isEmail "not-an-email" = false ∧
    Validation.isEmail "a.,;:s@\x22]@x.co" = true :=
  ⟨by decide, by decide, by decide, by decide⟩

/-- C2: the `required` rule fails exactly for absent values and values
whose string representation has zero length after removing all whitespace
characters, and passes for every other value; in particular `""` and
`"  "` fail and `"a"` passes. -/
theorem C2_required_characterization (v : JsValue) (lbl : String) (msg : Option String) :
    ((requiredRuleOf lbl msg).handle v = .ok false ↔
      (jsIsNone v = true ∨ (stripJsWhitespace (toJsString v)).length = 0)) ∧
    ((requiredRuleOf lbl msg).handle v = .ok true ↔
      (jsIsNone v = false ∧ (stripJsWhitespace (toJsString v)).length ≠ 0)) ∧
    (requiredRuleOf lbl msg).handle (.vStr "") = .ok false ∧
    (requiredRuleOf lbl msg).handle (.vStr "  ") = .ok false ∧
    (requiredRuleOf lbl msg).handle (.vStr "a") = .ok true := by
  have hiff := isEmpty_eq_true_iff v
  refine ⟨?_, ?_, by simp [requiredRuleOf]; decide, by simp [requiredRuleOf]; decide,
    by simp [requiredRuleOf]; decide⟩
  · simp only [requiredRuleOf, Except.ok.injEq]
    rw [Bool.not_eq_false_eq_eq_true]
    exact hiff
  · simp only [requiredRuleOf, Except.ok.injEq]
    rw [Bool.not_eq_true_eq_eq_false]
    constructor
    · intro h
      have : ¬ (jsIsNone v = true ∨ (stripJsWhitespace (toJsString v)).length = 0) := by
        intro hc
        rw [← hiff] at hc
        simp [hc] at h
      push_neg at this
      exact ⟨by simpa using this.1, this.2⟩
    · intro h
      rcases hb : Validation.isEmpty v with _ | _
      · rfl
      · exfalso
        rcases hiff.mp hb with hnone | hlen
        · rw [h.1] at hnone; exact Bool.false_ne_true hnone
        · exact h.2 hlen

/-- C3: `isAccepted` passes exactly for a string whose lower-casing is
"yes", the boolean `true`, or the number `1`; in particular `"Yes"` passes
while `"on"` and `0` fail. -/
theorem C3_accepted_characterization (v : JsValue) :
    (Validation.isAccepted v = true ↔
      ((∃ s, v = .vStr s ∧ jsToLowerAscii s = "yes") ∨ v = .vBool true ∨ v = .vNum 1)) ∧
    Validation.isAccepted (.vStr "yes") = true ∧
    Validation.isAccepted (.vStr "Yes") = true ∧
    Validation.isAccepted (.vBool true) = true ∧
    Validation.isAccepted (.vNum 1) = true ∧
    Validation.isAccepted (.vStr "on") = false ∧
    Validation.isAccepted (.vNum 0) = false := by
  refine ⟨?_, by decide, by decide, by decide, by decide, by decide, by decide⟩
  cases v <;> simp [Validation.isAccepted]

/-- C9: with valid dates on both sides, `after` passes exactly for a field
date strictly greater than the bound (equal dates fail) and `afterOrEqual`
passes for greater-or-equal (equal dates pass); the attached rule compares
against the bound coerced to a moment at attachment time. -/
theorem C9_after_and_afterOrEqual (x y : Int) (lbl : String) (d : MomentInput) (msg : Option String) (v : JsValue) :
    (Validation.isAfter (.mom (some x)) (.mom (some y)) = decide (y < x)) ∧
    (Validation.isAfterOrEqual (.mom (some x)) (.mom (some y)) = decide (y ≤ x)) ∧
    (Validation.isAfter (.mom (some x)) (.mom (some x)) = false) ∧
    (Validation.isAfterOrEqual (.mom (some x)) (.mom (some x)) = true) ∧
    ((afterRuleOf lbl d msg).handle v =
      .ok (Validation.isAfter (.raw v) (coerceMomentInput d))) ∧
    ((afterOrEqualRuleOf lbl d msg).handle v =
      .ok (Validation.isAfterOrEqual (.raw v) (coerceMomentInput d))) ∧
    (momentOfValue v = some x → (coerceMomentInput d).toMoment = some y →
      (afterRuleOf lbl d msg).handle v = .ok (decide (y < x)) ∧
      (afterOrEqualRuleOf lbl d msg).handle v = .ok (decide (y ≤ x))) := by
  refine ⟨rfl, rfl, by simp [Validation.isAfter, MomentInput.toMoment],
    by simp [Validation.isAfterOrEqual, MomentInput.toMoment], rfl, rfl, ?_⟩
  intro h1 h2
  have e1 : (MomentInput.raw v).toMoment = some x := h1
  constructor
  · show Except.ok (Validation.isAfter (.raw v) (coerceMomentInput d)) = _
    unfold Validation.isAfter
    rw [e1, h2]
  · show Except.ok (Validation.isAfterOrEqual (.raw v) (coerceMomentInput d)) = _
    unfold Validation.isAfterOrEqual
    rw [e1, h2]

/-- Witness for C9: a field value parsing to timestamp 5 passes `after`
with bound 3, and one parsing to 3 passes `afterOrEqual` with bound 3. -/
theorem C9_witness :
    (afterRuleOf "start date" (.raw (.vNum 3)) none).handle (.vNum 5) = .ok true ∧
    (afterOrEqualRuleOf "start date" (.raw (.vNum 3)) none).handle (.vNum 3) = .ok true := by
  constructor
  · exact ((C9_after_and_afterOrEqual 5 3 "start date" (.raw (.vNum 3)) none
      (.vNum 5)).2.2.2.2.2.2 rfl rfl).1.trans (by rfl)
  · exact ((C9_after_and_afterOrEqual 3 3 "start date" (.raw (.vNum 3)) none
      (.vNum 3)).2.2.2.2.2.2 rfl rfl).2.trans (by rfl)

/-- C10: referencing an already-known field name returns the stored field
validator and leaves the form unchanged — in particular a label supplied on
the later call is ignored and the label fixed at first reference is kept. -/
theorem C10_field_idempotent (form : FormValidator) (name : String) (lbl2 : Option String) (fv : FieldValidator)
    (h : lookupField form.fields name = some fv) :
    form.field name lbl2 = (form, fv) := by
  unfold FormValidator.field
  rw [h]

/-- A form whose field "userName" was first referenced without a label, so
its label is the lower-cased/spaced derivation "user name". -/
def exIdemForm : FormValidator :=
  (FormValidator.field { input := [], fields := [], fieldErrors := [] } "userName" none).1

/-- Witness for C10: a second `field` call with a different label returns
the existing validator (with the original derived label) unchanged. -/
theorem C10_witness :
    exIdemForm.field "userName" (some "Ignored") =
      (exIdemForm,
        { fieldName := "userName", fieldLabel := "user name", rules := [], errors := [] }) :=
  C10_field_idempotent exIdemForm "userName" (some "Ignored") _ (by rfl)

/-- C7: `validateAndThrow` raises exactly when `validate` reports failure,
and the raised error carries the aggregate field-error map with the fixed
default message, which the constructor lets callers override: any
non-empty message overrides, while an absent message — or an empty one,
since `message || 'Invalid form input'` is a falsy check — keeps the
default. -/
theorem C7_validateAndThrow_spec (form form2 : FormValidator) (valid : Bool)
    (fields0 : List (String × List FieldValidationError)) (m : String)
    (h : form.validate = .ok (form2, valid)) :
    (valid = true → form.validateAndThrow = .ok form2) ∧
    (valid = false → form.validateAndThrow =
      .error (.formError (FormValidationError.make form2.fieldErrors none))) ∧
    (FormValidationError.make fields0 none).message = "Invalid form input" ∧
    (m ≠ "" → (FormValidationError.make fields0 (some m)).message = m) ∧
    (FormValidationError.make fields0 (some "")).message = "Invalid form input" := by
  refine ⟨?_, ?_, rfl, ?_, rfl⟩
  · intro hv; subst hv
    simp [FormValidator.validateAndThrow, h]
  · intro hv; subst hv
    simp [FormValidator.validateAndThrow, h, FormValidator.getErrors]
  · intro hm
    simp [FormValidationError.make, jsStringOr, hm]

/-- A fully passing one-field form: "name" is present and non-empty and
carries only the `required` rule. -/
def exPassForm : FormValidator :=
  FormValidator.withRuleOn { input := [("name", .vStr "a")], fields := [], fieldErrors := [] }
    "name" none (fun fv => fv.required none)

/-- Witness for C7: on a fully passing input set `validateAndThrow`
returns without raising, and a concrete non-empty constructor message
overrides the default. -/
theorem C7_witness :
    exPassForm.validateAndThrow = .ok exPassForm ∧
    (FormValidationError.make [] (some "Custom message")).message = "Custom message" :=
  ⟨(C7_validateAndThrow_spec exPassForm exPassForm true [] "Custom message" (by rfl)).1 rfl,
   (C7_validateAndThrow_spec exPassForm exPassForm true [] "Custom message"
     (by rfl)).2.2.2.1 (by decide)⟩

/-- Membership is preserved when inserting into a sorted list. -/
theorem mem_insertSortedBy {α : Type} (f : α → Nat) (a b : α) (l : List α) :
    b ∈ insertSortedBy f a l ↔ b = a ∨ b ∈ l := by
  induction l with
  | nil => simp [insertSortedBy]
  | cons c cs ih =>
    by_cases hc : f a < f c
    · simp [insertSortedBy, hc]
    · simp [insertSortedBy, hc, ih]
      tauto

/-- Membership is preserved by the insertion sort. -/
theorem mem_insertionSortBy {α : Type} (f : α → Nat) (b : α) (l : List α) :
    b ∈ insertionSortBy f l ↔ b ∈ l := by
  induction l with
  | nil => simp [insertionSortBy]
  | cons c cs ih => simp [insertionSortBy, mem_insertSortedBy, ih]

/-- Sorted insertion commutes with mapping a sort-key-preserving function. -/
theorem insertSortedBy_map {α : Type} (f : α → Nat) (g : α → α)
    (h : ∀ a, f (g a) = f a) (a : α) (l : List α) :
    insertSortedBy f (g a) (l.map g) = (insertSortedBy f a l).map g := by
  induction l with
  | nil => simp [insertSortedBy]
  | cons c cs ih =>
    by_cases hc : f a < f c <;> simp [insertSortedBy, h, hc, ih]

/-- Insertion sort commutes with mapping a sort-key-preserving function. -/
theorem insertionSortBy_map {α : Type} (f : α → Nat) (g : α → α)
    (h : ∀ a, f (g a) = f a) (l : List α) :
    insertionSortBy f (l.map g) = (insertionSortBy f l).map g := by
  induction l with
  | nil => simp [insertionSortBy]
  | cons c cs ih => simp [insertionSortBy, ih, insertSortedBy_map f g h]

/-- Filtering by a predicate unchanged under `g` commutes with `map g`. -/
theorem filter_map_pres {α : Type} (p : α → Bool) (g : α → α)
    (h : ∀ a, p (g a) = p a) (l : List α) :
    (l.map g).filter p = (l.filter p).map g := by
  induction l with
  | nil => simp
  | cons c cs ih =>
    by_cases hc : p c <;> simp [List.filter_cons, h, hc, ih]

/-- JavaScript own-key enumeration order commutes with mapping a
key-preserving function over the entries. -/
theorem jsOwnKeysOrder_map {α : Type} (key : α → String) (g : α → α)
    (h : ∀ a, key (g a) = key a) (l : List α) :
    jsOwnKeysOrder key (l.map g) = (jsOwnKeysOrder key l).map g := by
  unfold jsOwnKeysOrder
  rw [filter_map_pres _ g (by intro a; rw [h a]),
    filter_map_pres _ g (by intro a; rw [h a]),
    insertionSortBy_map _ g (by intro a; rw [h a]), List.map_append]

/-- Enumeration order is a permutation: membership is unchanged. -/
theorem mem_jsOwnKeysOrder {α : Type} (key : α → String) (a : α) (l : List α) :
    a ∈ jsOwnKeysOrder key l ↔ a ∈ l := by
  unfold jsOwnKeysOrder
  simp only [List.mem_append, mem_insertionSortBy, List.mem_filter]
  by_cases hc : isArrayIndexKey (key a) <;> simp [hc]

/-- When no key is a canonical array index, enumeration order is exactly
insertion order. -/
theorem jsOwnKeysOrder_id {α : Type} (key : α → String) (l : List α)
    (h : ∀ a ∈ l, isArrayIndexKey (key a) = false) :
    jsOwnKeysOrder key l = l := by
  unfold jsOwnKeysOrder
  have h1 : l.filter (fun a => isArrayIndexKey (key a)) = [] := by
    rw [List.filter_eq_nil_iff]
    intro a ha
    simp [h a ha]
  have h2 : l.filter (fun a => !isArrayIndexKey (key a)) = l := by
    rw [List.filter_eq_self]
    intro a ha
    simp [h a ha]
  rw [h1, h2]
  rfl

/-- Shape of a successful `check`: the result is the validator with its
`errors` replaced by the freshly computed list, paired with `hasErrors`. -/
theorem check_ok_elim (fv : FieldValidator) (input : List (String × JsValue)) (p : FieldValidator × Bool)
    (h : fv.check input = .ok p) :
    ∃ errs, checkRulesAux (getInputValue input fv.fieldName)
        (jsOwnKeysOrder ValidationRule.name fv.rules) [] = .ok errs ∧
      p = ({ fv with errors := errs }, !errs.isEmpty) := by
  unfold FieldValidator.check at h
  cases hc : checkRulesAux (getInputValue input fv.fieldName)
      (jsOwnKeysOrder ValidationRule.name fv.rules) [] with
  | error e => rw [hc] at h; simp at h
  | ok errs =>
    rw [hc] at h
    simp only [Except.ok.injEq] at h
    exact ⟨errs, rfl, h.symm⟩

/-- Lemma: `check` resets `errors` first, so the previous error list is
irrelevant. -/
theorem check_errors_reset (fv : FieldValidator) (e : List FieldValidationError) (input : List (String × JsValue)) :
    FieldValidator.check { fv with errors := e } input = fv.check input := rfl

/-- Re-checking the post-check state reproduces it. -/
theorem check_idem (fv fv2 : FieldValidator) (input : List (String × JsValue)) (b : Bool)
    (h : fv.check input = .ok (fv2, b)) : fv2.check input = .ok (fv2, b) := by
  obtain ⟨errs, hc, hp⟩ := check_ok_elim fv input _ h
  injection hp with h1 h2
  subst h1
  subst h2
  rw [check_errors_reset]
  unfold FieldValidator.check
  rw [hc]

/-- Lemma: `checkedOrSelf` of a successfully checked validator, and its
idempotence. -/
theorem checkedOrSelf_of_ok (input : List (String × JsValue)) (fv fv2 : FieldValidator) (b : Bool)
    (h : fv.check input = .ok (fv2, b)) :
    checkedOrSelf input fv = fv2 ∧ checkedOrSelf input fv2 = fv2 := by
  have h2 := check_idem fv fv2 input b h
  constructor
  · unfold checkedOrSelf
    rw [h]
  · unfold checkedOrSelf
    rw [h2]

/-- Lemma: `checkedOrSelf` never changes the field name. -/
theorem checkedOrSelf_fieldName (input : List (String × JsValue)) (fv : FieldValidator) :
    (checkedOrSelf input fv).fieldName = fv.fieldName := by
  unfold checkedOrSelf
  cases h : fv.check input with
  | error e => rfl
  | ok p =>
    obtain ⟨fv2, b⟩ := p
    obtain ⟨errs, hc, hp⟩ := check_ok_elim fv input (fv2, b) h
    injection hp with h1 h2
    rw [h1]

/-- A successful validation loop means every listed field checked
successfully. -/
theorem runChecks_ok_all (input : List (String × JsValue)) (fvs : List FieldValidator)
    (em : List (String × List FieldValidationError)) (vd : Bool)
    (r : List (String × List FieldValidationError) × Bool)
    (h : runChecks input fvs em vd = .ok r) :
    ∀ fv ∈ fvs, ∃ p, fv.check input = .ok p := by
  induction fvs generalizing em vd with
  | nil => intro fv hfv; simp at hfv
  | cons f fs ih =>
    intro fv hfv
    unfold runChecks at h
    cases hc : f.check input with
    | error e => rw [hc] at h; simp at h
    | ok p =>
      obtain ⟨fv2, b⟩ := p
      rw [hc] at h
      rcases List.mem_cons.mp hfv with h1 | h1
      · subst h1; exact ⟨(fv2, b), hc⟩
      · exact ih _ _ h fv h1

/-- Running the loop over the post-check states gives the same outcome as
over the original fields (each check resets the errors it recomputes). -/
theorem runChecks_map_checked (input : List (String × JsValue)) (fvs : List FieldValidator)
    (hall : ∀ fv ∈ fvs, ∃ p, fv.check input = .ok p)
    (em : List (String × List FieldValidationError)) (vd : Bool) :
    runChecks input (fvs.map (checkedOrSelf input)) em vd = runChecks input fvs em vd := by
  induction fvs generalizing em vd with
  | nil => rfl
  | cons f fs ih =>
    obtain ⟨⟨fv2, b⟩, hc⟩ := hall f (List.mem_cons_self f fs)
    have hco := checkedOrSelf_of_ok input f fv2 b hc
    have hc2 := check_idem f fv2 input b hc
    show runChecks input (checkedOrSelf input f :: fs.map (checkedOrSelf input)) em vd = _
    rw [hco.1]
    unfold runChecks
    rw [hc2, hc]
    exact ih (fun fv hf => hall fv (List.mem_cons_of_mem f hf)) _ _

/-- A successful rule loop appends exactly one failure record, in rule
order, for every rule whose predicate returned false. -/
theorem checkRulesAux_ok_characterization (v : JsValue) (rs : List ValidationRule)
    (acc errs : List FieldValidationError)
    (h : checkRulesAux v rs acc = .ok errs) :
    errs = acc ++ rs.filterMap (fun r =>
      match r.handle v with
      | .ok false => some (mkFieldError r)
      | _ => none) := by
  induction rs generalizing acc with
  | nil =>
    unfold checkRulesAux at h
    simp only [Except.ok.injEq] at h
    simp [h]
  | cons r rest ih =>
    unfold checkRulesAux at h
    cases hh : r.handle v with
    | error e => rw [hh] at h; simp at h
    | ok pass =>
      rw [hh] at h
      have he := ih _ h
      rw [he]
      cases pass <;> simp [List.filterMap_cons, hh]

/-- A rule predicate that throws aborts the rule loop with that exception,
provided the rules before it returned normally. -/
theorem checkRulesAux_error_mid (v : JsValue) (rs1 : List ValidationRule) (r : ValidationRule)
    (rs2 : List ValidationRule) (e : String)
    (hok : ∀ r0 ∈ rs1, ∃ b, r0.handle v = .ok b)
    (hthrow : r.handle v = .error e) (acc : List FieldValidationError) :
    checkRulesAux v (rs1 ++ r :: rs2) acc = .error e := by
  induction rs1 generalizing acc with
  | nil =>
    show checkRulesAux v (r :: rs2) acc = .error e
    unfold checkRulesAux
    rw [hthrow]
  | cons r0 rest ih =>
    obtain ⟨b, hb⟩ := hok r0 (List.mem_cons_self r0 rest)
    show checkRulesAux v (r0 :: (rest ++ r :: rs2)) acc = .error e
    unfold checkRulesAux
    rw [hb]
    exact ih (fun x hx => hok x (List.mem_cons_of_mem r0 hx)) _

/-- A field whose check throws aborts the validation loop with that
exception, provided the fields before it checked normally. -/
theorem runChecks_error_mid (input : List (String × JsValue)) (fs1 : List FieldValidator)
    (f : FieldValidator) (fs2 : List FieldValidator) (e : String)
    (hok : ∀ fv ∈ fs1, ∃ p, fv.check input = .ok p)
    (hthrow : f.check input = .error e)
    (em : List (String × List FieldValidationError)) (vd : Bool) :
    runChecks input (fs1 ++ f :: fs2) em vd = .error e := by
  induction fs1 generalizing em vd with
  | nil =>
    show runChecks input (f :: fs2) em vd = .error e
    unfold runChecks
    rw [hthrow]
  | cons f0 rest ih =>
    obtain ⟨⟨fv2, b⟩, hb⟩ := hok f0 (List.mem_cons_self f0 rest)
    show runChecks input (f0 :: (rest ++ f :: fs2)) em vd = .error e
    unfold runChecks
    rw [hb]
    exact ih (fun x hx => hok x (List.mem_cons_of_mem f0 hx)) _ _

/-- C8: a rule predicate that throws (rather than returning false)
propagates out of `check()` and out of the whole `validate()` call,
aborting the remaining rule and field checks; it is neither swallowed nor
turned into a failure record (the result is the exception, not an error
map). -/
theorem C8_predicate_exception_propagates (form : FormValidator)
    (fs1 : List FieldValidator) (f : FieldValidator) (fs2 : List FieldValidator)
    (rs1 : List ValidationRule) (r : ValidationRule) (rs2 : List ValidationRule) (e : String)
    (hfields : jsOwnKeysOrder FieldValidator.fieldName form.fields = fs1 ++ f :: fs2)
    (hfok : ∀ fv ∈ fs1, ∃ p, fv.check form.input = .ok p)
    (hrules : jsOwnKeysOrder ValidationRule.name f.rules = rs1 ++ r :: rs2)
    (hrok : ∀ r0 ∈ rs1, ∃ b, r0.handle (getInputValue form.input f.fieldName) = .ok b)
    (hthrow : r.handle (getInputValue form.input f.fieldName) = .error e) :
    f.check form.input = .error e ∧ form.validate = .error e := by
  have hcheck : f.check form.input = .error e := by
    unfold FieldValidator.check
    rw [hrules, checkRulesAux_error_mid _ _ _ _ _ hrok hthrow]
  refine ⟨hcheck, ?_⟩
  unfold FormValidator.validate
  rw [hfields, runChecks_error_mid _ _ _ _ _ hfok hcheck]

/-- An extensible-interface rule whose (async) predicate rejects — e.g. a
uniqueness check against an unreachable backing store. -/
def exThrowRule : ValidationRule :=
  { name := "unique", isAsync := true,
    handle := fun _ => .error "connection lost",
    message := "The ${label} has already been taken.",
    attrs := [("label", "name")] }

/-- A field carrying a passing `required` rule followed by the throwing
rule. -/
def exThrowField : FieldValidator :=
  { fieldName := "name", fieldLabel := "name",
    rules := [requiredRuleOf "name" none, exThrowRule], errors := [] }

/-- A one-field form whose second rule throws. -/
def exThrowForm : FormValidator :=
  { input := [("name", .vStr "a")], fields := [exThrowField], fieldErrors := [] }

/-- Witness for C8: the thrown predicate exception escapes both `check`
and `validate` on a concrete form. -/
theorem C8_witness :
    exThrowField.check exThrowForm.input = .error "connection lost" ∧
    exThrowForm.validate = .error "connection lost" :=
  C8_predicate_exception_propagates exThrowForm [] exThrowField []
    [requiredRuleOf "name" none] exThrowRule [] "connection lost"
    (by rfl) (by simp) (by rfl)
    (by
      intro r0 hr0
      rw [List.mem_singleton] at hr0
      subst hr0
      exact ⟨true, rfl⟩)
    rfl

/-- Check every field in the given order, collecting the post-check
states; a throwing predicate aborts the pass. -/
def checkAllFields (input : List (String × JsValue)) : List FieldValidator → Except String (List FieldValidator)
  | [] => .ok []
  | fv :: rest =>
    match fv.check input with
    | .error e => .error e
    | .ok (fv2, _) =>
      match checkAllFields input rest with
      | .error e => .error e
      | .ok checked => .ok (fv2 :: checked)

/-- The validation pass in the words of claim C4 (with the iteration order
JavaScript actually uses): clear the aggregate error map; iterate the
fields in own-key enumeration order invoking each field's `check()`; store
a field's failure records under its name exactly when it reports errors;
return true if and only if no field produced errors. -/
def FormValidator.validateSpec (form : FormValidator) : Except String (FormValidator × Bool) :=
  match checkAllFields form.input (jsOwnKeysOrder FieldValidator.fieldName form.fields) with
  | .error e => .error e
  | .ok checked =>
    .ok ({ form with fields := form.fields.map (checkedOrSelf form.input), fieldErrors := checked.filterMap (fun fv2 => if fv2.hasErrors then some (fv2.fieldName, fv2.errors) else none) }, checked.all (fun fv2 => !fv2.hasErrors))

/-- The source's flag-and-accumulator loop computes exactly the
filter-and-forall description of the spec. -/
theorem runChecks_eq_checkAll (input : List (String × JsValue)) (fvs : List FieldValidator)
    (em : List (String × List FieldValidationError)) (vd : Bool) :
    runChecks input fvs em vd = (checkAllFields input fvs).map (fun checked =>
      (em ++ checked.filterMap (fun fv2 => if fv2.hasErrors then some (fv2.fieldName, fv2.errors) else none),
       vd && checked.all (fun fv2 => !fv2.hasErrors))) := by
  induction fvs generalizing em vd with
  | nil => simp [runChecks, checkAllFields, Except.map]
  | cons f fs ih =>
    unfold runChecks checkAllFields
    cases hc : f.check input with
    | error e => simp [Except.map]
    | ok p =>
      obtain ⟨fv2, b⟩ := p
      dsimp only
      rw [ih]
      cases hall : checkAllFields input fs with
      | error e => simp [Except.map]
      | ok checked =>
        simp only [Except.map, List.filterMap_cons, List.all_cons]
        cases hhe : fv2.hasErrors <;>
          simp [hhe, Bool.and_assoc, List.append_assoc]

/-- Lemma: `validate` agrees with the spec-worded `validateSpec`. -/
theorem validate_eq_validateSpec (form : FormValidator) :
    form.validate = form.validateSpec := by
  unfold FormValidator.validate FormValidator.validateSpec
  rw [runChecks_eq_checkAll]
  cases hall : checkAllFields form.input (jsOwnKeysOrder FieldValidator.fieldName form.fields) with
  | error e => simp [Except.map]
  | ok checked => simp [Except.map]

/-- C4 (amended for JavaScript's enumeration order): `validate()` clears
the aggregate error map (a stale map does not influence the result — it is
fully replaced, never merged), iterates the fields in own-key enumeration
order invoking each field's `check()`, stores a field's failure records
under its name exactly when that field reports errors, and returns true
iff no field produced errors (`validateSpec` spells this out); when no
field name is a canonical array-index string, the enumeration order is
exactly first-referenced order. -/
theorem C4_validate_matches_spec (form : FormValidator) (stale : List (String × List FieldValidationError)) :
    form.validate = form.validateSpec ∧
    FormValidator.validate { form with fieldErrors := stale } = form.validate ∧
    ((∀ fv ∈ form.fields, isArrayIndexKey fv.fieldName = false) →
      jsOwnKeysOrder FieldValidator.fieldName form.fields = form.fields) := by
  refine ⟨validate_eq_validateSpec form, ?_, fun h => jsOwnKeysOrder_id _ _ h⟩
  rfl

/-- Witness for C4: on a concrete form with a non-numeric field name the
enumeration order is the first-referenced order, and a stale error map
does not change the outcome. -/
theorem C4_witness :
    jsOwnKeysOrder FieldValidator.fieldName exPassForm.fields = exPassForm.fields ∧
    FormValidator.validate { exPassForm with fieldErrors := [("stale", [])] } = exPassForm.validate :=
  ⟨(C4_validate_matches_spec exPassForm []).2.2 (by decide),
   (C4_validate_matches_spec exPassForm [("stale", [])]).2.1⟩

/-- A form whose two fields are named "1" and "0", referenced in that
order, both failing `required` (the input is empty). -/
def exNumForm : FormValidator :=
  FormValidator.withRuleOn
    (FormValidator.withRuleOn { input := [], fields := [], fieldErrors := [] }
      "1" none (fun fv => fv.required none))
    "0" none (fun fv => fv.required none)

/-- Counterexample to C4 as stated: the fields were first referenced in
the order "1", "0", but `validate` iterates and stores them in ascending
numeric order, so the resulting error map lists "0" before "1". -/
theorem C4_counterexample :
    exNumForm.fields.map FieldValidator.fieldName = ["1", "0"] ∧
    (exNumForm.validate).map (fun p => p.1.fieldErrors.map Prod.fst) = .ok ["0", "1"] :=
  ⟨rfl, rfl⟩

/-- Defining equation of `validate`, for rewriting at a structure literal. -/
theorem validate_unfold (form : FormValidator) :
    form.validate =
      match runChecks form.input (jsOwnKeysOrder FieldValidator.fieldName form.fields) [] true with
      | .error e => .error e
      | .ok (errMap, valid) =>
        .ok ({ form with fields := form.fields.map (checkedOrSelf form.input), fieldErrors := errMap }, valid) := rfl

/-- C5: validation is idempotent — a second `validate()` on the state left
by a successful first call returns the same result and the same error map
(each call recomputes from the unchanged input snapshot, and `check()`
resets each field's failure list before running its rules). -/
theorem C5_validate_idempotent (form form1 : FormValidator) (v1 : Bool)
    (h : form.validate = .ok (form1, v1)) :
    form1.validate = .ok (form1, v1) := by
  rw [validate_unfold] at h
  cases hr : runChecks form.input (jsOwnKeysOrder FieldValidator.fieldName form.fields) [] true with
  | error e => rw [hr] at h; simp at h
  | ok res =>
    obtain ⟨em, vd⟩ := res
    rw [hr] at h
    simp only [Except.ok.injEq, Prod.mk.injEq] at h
    obtain ⟨hform1, hv1⟩ := h
    subst hv1
    have hall : ∀ fv ∈ jsOwnKeysOrder FieldValidator.fieldName form.fields,
        ∃ p, fv.check form.input = .ok p := runChecks_ok_all _ _ _ _ _ hr
    have hmap : jsOwnKeysOrder FieldValidator.fieldName
          (form.fields.map (checkedOrSelf form.input)) =
        (jsOwnKeysOrder FieldValidator.fieldName form.fields).map (checkedOrSelf form.input) :=
      jsOwnKeysOrder_map _ _ (fun fv => checkedOrSelf_fieldName form.input fv) _
    have hrun : runChecks form.input
        ((jsOwnKeysOrder FieldValidator.fieldName form.fields).map (checkedOrSelf form.input)) [] true = .ok (em, vd) := by
      rw [runChecks_map_checked _ _ hall, hr]
    have hfields2 : (form.fields.map (checkedOrSelf form.input)).map (checkedOrSelf form.input) =
        form.fields.map (checkedOrSelf form.input) := by
      rw [List.map_map]
      apply List.map_congr_left
      intro fv hfv
      obtain ⟨⟨fv2, b⟩, hc⟩ := hall fv ((mem_jsOwnKeysOrder _ _ _).mpr hfv)
      obtain ⟨h1, h2⟩ := checkedOrSelf_of_ok form.input fv fv2 b hc
      show checkedOrSelf form.input (checkedOrSelf form.input fv) = checkedOrSelf form.input fv
      rw [h1, h2]
    subst hform1
    rw [validate_unfold]
    dsimp only
    rw [hmap, hrun, hfields2]

/-- A one-field form whose "name" field is present but empty, so
`required` fails. -/
def exFailForm : FormValidator :=
  FormValidator.withRuleOn { input := [("name", .vStr "")], fields := [], fieldErrors := [] }
    "name" none (fun fv => fv.required none)

/-- The state `validate` leaves `exFailForm` in: the field carries its
failure record and the aggregate map lists it. -/
def exFailFormChecked : FormValidator :=
  { input := [("name", .vStr "")],
    fields := [
      { fieldName := "name"
        fieldLabel := "name"
        rules := [requiredRuleOf "name" none]
        errors := [{ rule := "required", message := "The name field is required." }] }],
    fieldErrors := [("name", [{ rule := "required", message := "The name field is required." }])] }

/-- Witness for C5: re-validating the post-validation state of a concrete
failing form reproduces exactly the same result and error map. -/
theorem C5_witness : exFailFormChecked.validate = .ok (exFailFormChecked, false) :=
  C5_validate_idempotent exFailForm exFailFormChecked false (by rfl)

/-- Pushing each record's message with `foldl` appends them in list
order. -/
theorem foldl_push_messages_inner (l : List FieldValidationError) (a : List String) :
    l.foldl (fun a2 fe => a2 ++ [fe.message]) a = a ++ l.map FieldValidationError.message := by
  induction l generalizing a with
  | nil => simp
  | cons fe fes ih => simp [ih, List.append_assoc]

/-- The nested message-pushing loop of `getCompiledMessage` flattens the
map in field order, then record order. -/
theorem foldl_push_messages (fields : List (String × List FieldValidationError)) (acc : List String) :
    fields.foldl (fun acc2 p => p.2.foldl (fun a fe => a ++ [fe.message]) acc2) acc =
      acc ++ (fields.map (fun p => p.2.map FieldValidationError.message)).flatten := by
  induction fields generalizing acc with
  | nil => simp
  | cons p ps ih =>
    rw [List.foldl_cons, ih, foldl_push_messages_inner]
    simp [List.append_assoc]

/-- C6 (amended for JavaScript's enumeration order): a successful check
leaves the field's failure records in rule enumeration order (equal to
rule-attachment order whenever no rule name is an array-index string —
true of every built-in rule name); the aggregate map built by `validate`
lists the failing fields in field enumeration order (equal to
first-referenced order whenever no field name is an array-index string);
and `getCompiledMessage` joins all messages in that same field order, then
record order, separated by the merge token (newline by default). -/
theorem C6_error_order_and_compiled_message
    (fv fv2 : FieldValidator) (input : List (String × JsValue)) (b : Bool)
    (e : FormValidationError) (tok : String)
    (form form2 : FormValidator) (valid : Bool)
    (hcheck : fv.check input = .ok (fv2, b))
    (hvalidate : form.validate = .ok (form2, valid)) :
    fv2.errors = (jsOwnKeysOrder ValidationRule.name fv.rules).filterMap (fun r =>
        match r.handle (getInputValue input fv.fieldName) with
        | .ok false => some (mkFieldError r)
        | _ => none) ∧
    ((∀ r ∈ fv.rules, isArrayIndexKey r.name = false) →
      jsOwnKeysOrder ValidationRule.name fv.rules = fv.rules) ∧
    (∃ checked, checkAllFields form.input
        (jsOwnKeysOrder FieldValidator.fieldName form.fields) = .ok checked ∧
      form2.fieldErrors = checked.filterMap (fun g =>
        if g.hasErrors then some (g.fieldName, g.errors) else none)) ∧
    e.getCompiledMessage tok = String.intercalate tok
      (((jsOwnKeysOrder Prod.fst e.fields).map (fun p =>
        p.2.map FieldValidationError.message)).flatten) ∧
    e.getCompiledMessageDefault = e.getCompiledMessage "\n" ∧
    ((∀ p ∈ e.fields, isArrayIndexKey p.1 = false) →
      jsOwnKeysOrder Prod.fst e.fields = e.fields) := by
  refine ⟨?_, fun h => jsOwnKeysOrder_id _ _ h, ?_, ?_, rfl,
    fun h => jsOwnKeysOrder_id _ _ h⟩
  · obtain ⟨errs, hc, hp⟩ := check_ok_elim fv input (fv2, b) hcheck
    injection hp with h1 h2
    subst h1
    have := checkRulesAux_ok_characterization _ _ _ _ hc
    simpa using this
  · rw [validate_eq_validateSpec] at hvalidate
    unfold FormValidator.validateSpec at hvalidate
    cases hall : checkAllFields form.input
        (jsOwnKeysOrder FieldValidator.fieldName form.fields) with
    | error e2 => rw [hall] at hvalidate; simp at hvalidate
    | ok checked =>
      rw [hall] at hvalidate
      simp only [Except.ok.injEq, Prod.mk.injEq] at hvalidate
      obtain ⟨hf2, hv⟩ := hvalidate
      exact ⟨checked, rfl, by rw [← hf2]⟩
  · unfold FormValidationError.getCompiledMessage
    rw [foldl_push_messages]
    simp

/-- A bare field validator carrying only a failing `required` rule. -/
def exFailField : FieldValidator :=
  { fieldName := "name", fieldLabel := "name",
    rules := [requiredRuleOf "name" none], errors := [] }

/-- A concrete validation error with two fields in declaration order. -/
def exC6Error : FormValidationError :=
  FormValidationError.make
    [("email", [{ rule := "email", message := "The email must be a valid email address." }]),
     ("name", [{ rule := "required", message := "The name field is required." }])] none

/-- Witness for C6: on concrete data, the compiled message joins messages
in field order with newlines, and a checked field's records match the
rule-order description. -/
theorem C6_witness :
    exC6Error.getCompiledMessageDefault =
      "The email must be a valid email address.\nThe name field is required." ∧
    ({ exFailField with
        errors := [{ rule := "required", message := "The name field is required." }] } : FieldValidator).errors =
      (jsOwnKeysOrder ValidationRule.name exFailField.rules).filterMap (fun r =>
        match r.handle (getInputValue [("name", JsValue.vStr "")] exFailField.fieldName) with
        | .ok false => some (mkFieldError r)
        | _ => none) := by
  have h := C6_error_order_and_compiled_message exFailField
    { exFailField with
        errors := [{ rule := "required", message := "The name field is required." }] }
    [("name", JsValue.vStr "")] true exC6Error "\n" exFailForm exFailFormChecked false
    (by rfl) (by rfl)
  exact ⟨h.2.2.2.2.1.trans (h.2.2.2.1.trans (by rfl)), h.1⟩

/-- The error thrown for `exNumForm`: the map lists "0" before "1". -/
def exNumFormError : FormValidationError :=
  FormValidationError.make
    [("0", [{ rule := "required", message := "The 0 field is required." }]),
     ("1", [{ rule := "required", message := "The 1 field is required." }])] none

/-- Counterexample to C6 as stated: the fields were declared in the order
"1", "0", yet the thrown error map lists "0" first and the compiled
message joins "0"'s message before "1"'s. -/
theorem C6_counterexample :
    exNumForm.fields.map FieldValidator.fieldName = ["1", "0"] ∧
    exNumForm.validateAndThrow = .error (.formError exNumFormError) ∧
    exNumFormError.getCompiledMessageDefault =
      "The 0 field is required.\nThe 1 field is required." :=
  ⟨rfl, rfl, rfl⟩
